import Mathlib

/-!
Shallow embedding of `src/robot_framework/process.py` (the filtering and
temporal-correlation pipeline of the address-change advisory robot), together
with theorems settling the frozen claims about it.

Modelling conventions:
* Dates and datetimes are integers: a `date` is a day number, a `datetime` is a
  count of seconds; `datetime.date()` is floor-division by 86400, and
  `timedelta.days` between two datetimes is the floor of the second difference
  divided by 86400 (Python's `timedelta` normalises exactly this way).
* An openpyxl worksheet is a header row (row 1) plus a list of data rows
  (rows 2..max_row); each row is a list of cell values, absent cells read as
  `CellValue.empty` (openpyxl's `None`).
* Python exceptions (`ValueError` from `list.index`, `TypeError` /
  `AttributeError` from ill-typed cell arithmetic) become `Except Err`.
* The ambient clock (`datetime.now()`) becomes an explicit oracle
  `clock : Nat → Int` giving the value of the t-th call made by the loop.
-/

namespace Akbo

/-! ## Address history (DWH.MART.AdresseHistorik rows) -/

/-- One row of the address-history result set: `DatoFra` (day number) and the
opaque address key `Adressenoegle`. -/
structure AddressRow where
  DatoFra : Int
  Adressenoegle : String
deriving DecidableEq, Inhabited

/-- Embedding of the `for row in rows` loop of `look_up_address_change`
(process.py lines 154-158): walk the rows, updating the running date while the
address key matches, stopping at the first mismatch. -/
def lookLoop (addressKey : String) (dateFrom : Int) : List AddressRow → Int
  | [] => dateFrom
  | r :: rs =>
    if r.Adressenoegle = addressKey then lookLoop addressKey r.DatoFra rs else dateFrom

/-- Embedding of `look_up_address_change` (process.py lines 131-160): the
result set is `rows` (newest first, per the `ORDER BY DatoFra DESC` query);
an empty result set yields `none` (the `cursor.rowcount == 0` check), otherwise
the loop runs over all rows starting from `rows[0]`. -/
def look_up_address_change (rows : List AddressRow) : Option Int :=
  match rows with
  | [] => none
  | r0 :: _ => some (lookLoop r0.Adressenoegle r0.DatoFra rows)

/-- Spec-side definition (§4.3 of the spec): the maximal contiguous run of
leading entries whose address key equals the newest entry's address key. -/
def currentRun (rows : List AddressRow) : List AddressRow :=
  match rows with
  | [] => []
  | r0 :: _ => rows.takeWhile (fun r => r.Adressenoegle == r0.Adressenoegle)

lemma getLastD_datoFra_congr (l : List AddressRow) (a b : AddressRow)
    (h : a.DatoFra = b.DatoFra) : (l.getLastD a).DatoFra = (l.getLastD b).DatoFra := by
  cases l with
  | nil => simpa using h
  | cons x xs => rw [List.getLastD_cons, List.getLastD_cons]

lemma lookLoop_eq_getLastD (rows : List AddressRow) :
    ∀ (key : String) (d : Int),
      lookLoop key d rows =
        ((rows.takeWhile (fun r => r.Adressenoegle == key)).getLastD ⟨d, key⟩).DatoFra := by
  induction rows with
  | nil => intro key d; simp [lookLoop]
  | cons r rs ih =>
    intro key d
    by_cases h : r.Adressenoegle = key
    · simp only [lookLoop, h, if_pos, List.takeWhile_cons, beq_iff_eq, List.getLastD_cons]
      rw [ih key r.DatoFra]
      exact getLastD_datoFra_congr _ _ _ rfl
    · have hb : (r.Adressenoegle == key) = false := by simpa using h
      simp [lookLoop, h, List.takeWhile_cons, hb]

lemma getLast?_eq_getLastD (l : List AddressRow) (hne : l ≠ []) (d : AddressRow) :
    l.getLast? = some (l.getLastD d) := by
  cases l with
  | nil => exact absurd rfl hne
  | cons a l =>
    rw [List.getLastD_cons]
    clear hne
    induction l generalizing a with
    | nil => simp
    | cons b l ih => rw [List.getLast?_cons_cons, List.getLastD_cons]; exact ih b

lemma getLastD_le_of_pairwise (l : List AddressRow) (d : AddressRow)
    (hp : l.Pairwise (fun a b => b.DatoFra ≤ a.DatoFra)) :
    ∀ x ∈ l, (l.getLastD d).DatoFra ≤ x.DatoFra := by
  induction l generalizing d with
  | nil => intro x hx; exact absurd hx (by simp)
  | cons r rs ih =>
    intro x hx
    rw [List.pairwise_cons] at hp
    rw [List.getLastD_cons]
    have hlast : rs.getLastD r ∈ r :: rs := List.getLastD_mem_cons rs r
    rw [List.mem_cons] at hx hlast
    rcases hx with hx | hx
    · subst hx
      rcases hlast with h | h
      · rw [h]
      · exact hp.1 _ h
    · exact ih r hp.2 x hx

/-- C1. For a non-empty history ordered newest-first, `look_up_address_change`
returns the `DatoFra` of the last (hence oldest) entry of the maximal
contiguous run of leading entries sharing the newest entry's address key. -/
theorem claim_C1 (rows : List AddressRow) (hne : rows ≠ [])
    (hsorted : rows.Pairwise (fun a b => b.DatoFra ≤ a.DatoFra)) :
    ∃ r, (currentRun rows).getLast? = some r ∧
      look_up_address_change rows = some r.DatoFra ∧
      ∀ x ∈ currentRun rows, r.DatoFra ≤ x.DatoFra := by
  cases rows with
  | nil => exact absurd rfl hne
  | cons r0 rest =>
    have hrunne : currentRun (r0 :: rest) ≠ [] := by
      simp [currentRun, List.takeWhile_cons]
    refine ⟨(currentRun (r0 :: rest)).getLastD r0, ?_, ?_, ?_⟩
    · exact getLast?_eq_getLastD _ hrunne r0
    · simp only [look_up_address_change, Option.some_inj]
      rw [lookLoop_eq_getLastD]
      exact getLastD_datoFra_congr _ _ _ rfl
    · have hsub : List.Sublist (currentRun (r0 :: rest)) (r0 :: rest) := by
        simp only [currentRun]
        exact List.takeWhile_sublist _
      exact getLastD_le_of_pairwise _ r0 (List.Pairwise.sublist hsub hsorted)

/-- History from the spec's walk example: `[(2024-06-01,"A"), (2024-01-01,"A"),
(2023-06-01,"B")]`, dates encoded as yyyymmdd integers. -/
def exampleRows : List AddressRow :=
  [⟨20240601, "A"⟩, ⟨20240101, "A"⟩, ⟨20230601, "B"⟩]

/-- Witness for C1 at the spec's concrete examples: the three-entry history
resolves to 2024-01-01 and a single-entry history resolves to its own date. -/
theorem claim_C1_witness :
    (∃ r, (currentRun exampleRows).getLast? = some r ∧
      look_up_address_change exampleRows = some r.DatoFra ∧
      ∀ x ∈ currentRun exampleRows, r.DatoFra ≤ x.DatoFra) ∧
    look_up_address_change exampleRows = some 20240101 ∧
    look_up_address_change [⟨20220303, "X"⟩] = some 20220303 :=
  ⟨claim_C1 exampleRows (by decide) (by decide), by decide, by decide⟩

/-- C5. An empty address history is a valid, non-erroneous response:
`look_up_address_change` is total on it and returns `none`. -/
theorem claim_C5 : look_up_address_change [] = none := rfl

/-! ## Worksheet model -/

/-- A cell value: `empty` is openpyxl's `None`; `dt` is a `datetime`
(seconds); `date` is a `datetime.date` (day number); `int` a number. -/
inductive CellValue where
  | empty
  | str (s : String)
  | dt (t : Int)
  | date (d : Int)
  | int (n : Int)
deriving DecidableEq, Inhabited

/-- A worksheet: row 1 (the header) and the data rows (rows 2..max_row). -/
structure Ws where
  header : List CellValue
  data : List (List CellValue)
deriving DecidableEq, Inhabited

/-- Python exceptions raised by the pipeline. -/
inductive Err where
  | valueError (column : String)
  | typeError
deriving DecidableEq, Inhabited

/-- Reading a cell by 0-based column index; absent cells read as `empty`. -/
def getCell0 (row : List CellValue) (i : Nat) : CellValue := row.getD i .empty

/-- Extend a row with empty cells so that 1-based column `c` exists
(openpyxl materialises missing cells on write). -/
def padTo (row : List CellValue) (c : Nat) : List CellValue :=
  row ++ List.replicate (c - row.length) .empty

/-- `ws.cell(row, c, v)` for a single row: write value `v` at 1-based
column `c`. -/
def setCell1 (row : List CellValue) (c : Nat) (v : CellValue) : List CellValue :=
  (padTo row c).set (c - 1) v

/-- Python truthiness of a cell value (`if aftaletype`). -/
def truthy : CellValue → Bool
  | .empty => false
  | .str s => s != ""
  | .int n => n != 0
  | .dt _ => true
  | .date _ => true

/-- Python `list.index` search: first index holding the value. -/
def pyFindIdx (v : CellValue) : List CellValue → Option Nat
  | [] => none
  | c :: cs => if c = v then some 0 else (pyFindIdx v cs).map (fun i => i + 1)

/-- Python `columns.index(name)`: the 0-based index of the column name, or a
`ValueError` when the name is absent from the header. -/
def pyIndex (name : String) (l : List CellValue) : Except Err Nat :=
  match pyFindIdx (.str name) l with
  | some i => .ok i
  | none => .error (.valueError name)

lemma pyFindIdx_eq_none (v : CellValue) (l : List CellValue) (h : v ∉ l) :
    pyFindIdx v l = none := by
  induction l with
  | nil => rfl
  | cons c cs ih =>
    rw [List.mem_cons, not_or] at h
    simp [pyFindIdx, Ne.symm h.1, ih h.2]

lemma pyFindIdx_lt (v : CellValue) (l : List CellValue) (i : Nat)
    (h : pyFindIdx v l = some i) : i < l.length := by
  induction l generalizing i with
  | nil => exact absurd h (by simp [pyFindIdx])
  | cons c cs ih =>
    by_cases hc : c = v
    · simp only [pyFindIdx, if_pos hc, Option.some.injEq] at h
      simp only [List.length_cons]
      omega
    · simp only [pyFindIdx, if_neg hc, Option.map_eq_some'] at h
      obtain ⟨j, hj, rfl⟩ := h
      have := ih j hj
      simp only [List.length_cons]
      omega

lemma pyIndex_error_of_not_mem (name : String) (l : List CellValue)
    (h : CellValue.str name ∉ l) : pyIndex name l = .error (.valueError name) := by
  simp [pyIndex, pyFindIdx_eq_none _ _ h]

lemma pyIndex_ok_lt (name : String) (l : List CellValue) (i : Nat)
    (h : pyIndex name l = .ok i) : i < l.length := by
  unfold pyIndex at h
  cases hf : pyFindIdx (.str name) l with
  | none => rw [hf] at h; exact absurd h (by simp)
  | some j => rw [hf] at h; cases h; exact pyFindIdx_lt _ _ _ hf

/-! ## List index helpers for the in-place loops -/

lemma getD_append_cons {α : Type} (pre : List α) (r : α) (suf : List α) (d : α) :
    (pre ++ r :: suf).getD pre.length d = r := by
  induction pre with
  | nil => rfl
  | cons a pre ih => simpa using ih

lemma eraseIdx_append_cons {α : Type} (pre : List α) (r : α) (suf : List α) :
    (pre ++ r :: suf).eraseIdx pre.length = pre ++ suf := by
  induction pre with
  | nil => rfl
  | cons a pre ih => simp [List.eraseIdx, ih]

lemma set_append_cons {α : Type} (pre : List α) (r : α) (suf : List α) (v : α) :
    (pre ++ r :: suf).set pre.length v = pre ++ v :: suf := by
  induction pre with
  | nil => rfl
  | cons a pre ih => simp [List.set, ih]

/-! ## The reverse-iteration deletion loop

`for row_index in range(ws.max_row, 1, -1)` with `ws.delete_rows(row_index)`
(process.py lines 84-96 and 183-191): one pure skeleton, parameterised by a
per-row action that may delete the row (`none`), replace it (`some r`) or
raise (`Except.error`).  The action receives the 0-based position so the
per-iteration clock sample can be threaded through. -/

def revLoop {α E : Type} [Inhabited α] (f : Nat → α → Except E (Option α)) :
    List α → Nat → Except E (List α)
  | d, 0 => .ok d
  | d, k + 1 =>
    match f k (d.getD k default) with
    | .error e => .error e
    | .ok none => revLoop f (d.eraseIdx k) k
    | .ok (some r) => revLoop f (d.set k r) k

/-- Functional description of the loop: process the list from the right
(matching the reverse traversal), keeping replaced rows and dropping deleted
ones; the first error raised is the rightmost failing row. -/
def exRevFM {α E : Type} (f : Nat → α → Except E (Option α)) :
    Nat → List α → Except E (List α)
  | _, [] => .ok []
  | i, r :: rs =>
    match exRevFM f (i + 1) rs with
    | .error e => .error e
    | .ok rest =>
      match f i r with
      | .error e => .error e
      | .ok none => .ok rest
      | .ok (some r') => .ok (r' :: rest)

/-- Strip the error case of a per-row action; used to state which rows an
error-free pass keeps. -/
def exToOpt {α E : Type} : Except E (Option α) → Option α
  | .ok o => o
  | .error _ => none

lemma exRevFM_snoc {α E : Type} (f : Nat → α → Except E (Option α))
    (l : List α) : ∀ (i : Nat) (r : α),
    exRevFM f i (l ++ [r]) =
      match f (i + l.length) r with
      | .error e => .error e
      | .ok none => exRevFM f i l
      | .ok (some r') => (exRevFM f i l).map (fun t => t ++ [r']) := by
  induction l with
  | nil =>
    intro i r
    cases h : f (i + [].length) r with
    | error e => simp only [List.length_nil, Nat.add_zero] at h; simp [exRevFM, h]
    | ok o =>
      simp only [List.length_nil, Nat.add_zero] at h
      cases o <;> simp [exRevFM, h, Except.map]
  | cons a l ih =>
    intro i r
    have harith : i + (a :: l).length = i + 1 + l.length := by
      simp only [List.length_cons]; omega
    rw [List.cons_append]
    simp only [exRevFM]
    rw [ih (i + 1) r, harith]
    cases h1 : f (i + 1 + l.length) r with
    | error e => rfl
    | ok o =>
      cases o with
      | none => rfl
      | some r' =>
        cases h2 : exRevFM f (i + 1) l with
        | error e => simp [Except.map]
        | ok rest =>
          cases h3 : f i a with
          | error e => simp [Except.map]
          | ok o => cases o <;> simp [Except.map]

lemma revLoop_append {α E : Type} [Inhabited α] (f : Nat → α → Except E (Option α))
    (pre : List α) : ∀ (suf : List α),
    revLoop f (pre ++ suf) pre.length = (exRevFM f 0 pre).map (fun t => t ++ suf) := by
  induction pre using List.reverseRecOn with
  | nil => intro suf; simp [revLoop, exRevFM, Except.map]
  | append_singleton l a ih =>
    intro suf
    rw [List.append_assoc, List.singleton_append]
    have hlen : (l ++ [a]).length = l.length + 1 := by simp
    rw [hlen]
    simp only [revLoop]
    rw [getD_append_cons]
    rw [exRevFM_snoc, Nat.zero_add]
    cases h1 : f l.length a with
    | error e => simp [Except.map]
    | ok o =>
      cases o with
      | none =>
        dsimp only
        rw [eraseIdx_append_cons, ih suf]
      | some r' =>
        dsimp only
        rw [set_append_cons, ih (r' :: suf)]
        cases h2 : exRevFM f 0 l with
        | error e => simp [Except.map]
        | ok t => simp [Except.map]

lemma revLoop_eq_exRevFM {α E : Type} [Inhabited α]
    (f : Nat → α → Except E (Option α)) (d : List α) :
    revLoop f d d.length = exRevFM f 0 d := by
  have h := revLoop_append f d []
  rw [List.append_nil] at h
  rw [h]
  cases hx : exRevFM f 0 d <;> simp [Except.map]

lemma exRevFM_congr {α E : Type} (f g : Nat → α → Except E (Option α)) :
    ∀ (i : Nat) (l : List α), (∀ j r, r ∈ l → f j r = g j r) →
    exRevFM f i l = exRevFM g i l := by
  intro i l
  induction l generalizing i with
  | nil => intro _; rfl
  | cons a l ih =>
    intro h
    simp only [exRevFM]
    rw [ih (i + 1) (fun j r hr => h j r (List.mem_cons_of_mem _ hr)),
      h i a (List.mem_cons_self a l)]

lemma exRevFM_pure_filter {α E : Type} (p : α → Bool) :
    ∀ (i : Nat) (l : List α),
    exRevFM (E := E) (fun _ r => .ok (if p r then some r else none)) i l =
      .ok (l.filter p) := by
  intro i l
  induction l generalizing i with
  | nil => rfl
  | cons a l ih =>
    simp only [exRevFM, ih]
    cases hp : p a <;> simp [List.filter_cons, hp]

lemma exRevFM_ok_filterMap {α E : Type} (F : α → Except E (Option α)) :
    ∀ (i : Nat) (l res : List α),
    exRevFM (fun _ r => F r) i l = .ok res →
      res = l.filterMap (fun r => exToOpt (F r)) := by
  intro i l
  induction l generalizing i with
  | nil => intro res h; simp only [exRevFM] at h; cases h; rfl
  | cons a l ih =>
    intro res h
    simp only [exRevFM] at h
    cases h1 : exRevFM (fun _ r => F r) (i + 1) l with
    | error e => rw [h1] at h; exact absurd h (by simp)
    | ok rest =>
      rw [h1] at h
      have hrest : rest = l.filterMap (fun r => exToOpt (F r)) := ih (i + 1) rest h1
      cases h2 : F a with
      | error e => rw [h2] at h; exact absurd h (by simp)
      | ok o =>
        rw [h2] at h
        cases o with
        | none =>
          cases h
          simp [List.filterMap_cons, exToOpt, h2, hrest]
        | some r' =>
          cases h
          simp [List.filterMap_cons, exToOpt, h2, hrest]

/-- Trace-collecting variant of the deletion loop with a pure marking
predicate: `.1` is the final list, `.2` collects the rows examined, in the
order they were visited. -/
def delLoopTrace {α : Type} [Inhabited α] (mark : α → Bool) :
    List α → Nat → List α × List α
  | d, 0 => (d, [])
  | d, k + 1 =>
    let r := d.getD k default
    let rest := delLoopTrace mark (if mark r then d.eraseIdx k else d) k
    (rest.1, r :: rest.2)

lemma delLoopTrace_append {α : Type} [Inhabited α] (mark : α → Bool)
    (pre : List α) : ∀ (suf : List α),
    delLoopTrace mark (pre ++ suf) pre.length =
      (pre.filter (fun r => !mark r) ++ suf, pre.reverse) := by
  induction pre using List.reverseRecOn with
  | nil => intro suf; simp [delLoopTrace]
  | append_singleton l a ih =>
    intro suf
    rw [List.append_assoc, List.singleton_append]
    have hlen : (l ++ [a]).length = l.length + 1 := by simp
    rw [hlen]
    simp only [delLoopTrace, getD_append_cons]
    cases hm : mark a with
    | true =>
      rw [if_pos rfl, eraseIdx_append_cons, ih suf]
      simp [List.filter_append, hm]
    | false =>
      rw [if_neg (by simp), ih (a :: suf)]
      simp [List.filter_append, hm]

/-- C7. Reverse-iteration in-place deletion visits every row exactly once, in
reverse order, and the survivors are exactly the unmarked rows in their
original relative order; the `Except`-valued loop skeleton agrees. -/
theorem claim_C7 (mark : List CellValue → Bool) (d : List (List CellValue)) :
    (delLoopTrace mark d d.length).2 = d.reverse ∧
    (delLoopTrace mark d d.length).1 = d.filter (fun r => !mark r) ∧
    revLoop (E := Err) (fun _ r => .ok (if mark r then none else some r)) d d.length =
      .ok (d.filter (fun r => !mark r)) := by
  have htrace := delLoopTrace_append mark d []
  rw [List.append_nil, List.append_nil] at htrace
  refine ⟨by rw [htrace], by rw [htrace], ?_⟩
  rw [revLoop_eq_exRevFM]
  rw [exRevFM_congr _ (fun _ r => .ok (if !mark r then some r else none)) 0 d
    (by intro j r _; cases hm : mark r <;> simp [hm])]
  exact exRevFM_pure_filter _ 0 d

/-! ## read_excel_file (process.py lines 63-98) -/

/-- Embedding of the header checks of `read_excel_file` (lines 76-81): look up
the five required column names in row 1, in source order; the `CPR` and
`Beløb` results are only checked, the other three indices are returned.  The
source adds 1 to use them with 1-based `ws.cell`; here the 0-based indices are
returned and reads use `getCell0`, which denotes the same cells. -/
def lookupIndices (columns : List CellValue) : Except Err (Nat × Nat × Nat) := do
  let _ ← pyIndex "CPR" columns
  let _ ← pyIndex "Beløb" columns
  let u ← pyIndex "Udbetalingsdato" columns
  let a ← pyIndex "Aftale type" columns
  let r ← pyIndex "RIM aftaletype" columns
  pure (u, a, r)

/-- Embedding of the deletion condition of lines 85-95 for one row, given the
value of `datetime.now()` sampled in that iteration: delete when `aftaletype`
is truthy, or `rim == 'IN'`, or `(current_date - dato).days < 90`; the
subtraction raises a `TypeError` when the date cell is not a datetime. -/
def deleteRow? (now : Int) (ui ai ri : Nat) (row : List CellValue) :
    Except Err Bool :=
  let aftaletype := getCell0 row ai
  let rim := getCell0 row ri
  let dato := getCell0 row ui
  if truthy aftaletype then .ok true
  else if rim = .str "IN" then .ok true
  else
    match dato with
    | .dt u => .ok (decide ((now - u).fdiv 86400 < 90))
    | _ => .error .typeError

/-- One iteration of the deletion loop of `read_excel_file`: the row at
0-based data index `k` is examined in iteration `n - 1 - k` (the loop starts
at the bottom row), so that iteration's `datetime.now()` sample is
`clock (n - 1 - k)`. -/
def readStep (clock : Nat → Int) (n ui ai ri : Nat) (k : Nat)
    (row : List CellValue) : Except Err (Option (List CellValue)) :=
  match deleteRow? (clock (n - 1 - k)) ui ai ri row with
  | .error e => .error e
  | .ok true => .ok none
  | .ok false => .ok (some row)

/-- Embedding of `read_excel_file` (lines 63-98).  `clock t` is the value of
the t-th `datetime.now()` call made by the loop (line 88 samples the clock
inside every iteration). -/
def read_excel_file (clock : Nat → Int) (wb : Ws) : Except Err Ws := do
  let (ui, ai, ri) ← lookupIndices wb.header
  let filtered ← revLoop (readStep clock wb.data.length ui ai ri) wb.data wb.data.length
  pure (Ws.mk wb.header filtered)

/-- Spec-side eligibility predicate (§4.2 of the spec): a row survives when
`agreementType` is empty/null, `specialAgreementType` is not `"IN"`, and the
disbursement date lies at least 90 days before `now`. -/
def specEligible (now : Int) (ui ai ri : Nat) (row : List CellValue) : Bool :=
  !truthy (getCell0 row ai) &&
  !(decide (getCell0 row ri = .str "IN")) &&
  (match getCell0 row ui with
   | .dt u => decide (90 ≤ (now - u).fdiv 86400)
   | _ => false)

lemma readStep_eq_filter (clock : Nat → Int) (t : Int) (n ui ai ri k : Nat)
    (row : List CellValue) (hc : ∀ i, clock i = t)
    (hu : ∃ u, getCell0 row ui = .dt u) :
    readStep clock n ui ai ri k row =
      .ok (if specEligible t ui ai ri row then some row else none) := by
  obtain ⟨u, hu⟩ := hu
  unfold readStep deleteRow? specEligible
  rw [hc (n - 1 - k), hu]
  by_cases ha : truthy (getCell0 row ai)
  · simp [ha]
  · by_cases hr : getCell0 row ri = .str "IN"
    · simp [ha, hr]
    · by_cases hlt : (t - u).fdiv 86400 < 90
      · simp [ha, hr, hlt, Int.not_le.mpr hlt]
      · simp [ha, hr, hlt, Int.not_lt.mp hlt]

/-- C3. With the clock held at a single value `t` and every data row carrying
a datetime in the disbursement-date column, `read_excel_file` keeps exactly
the rows satisfying the three-way eligibility predicate, in their original
order. -/
theorem claim_C3 (wb : Ws) (clock : Nat → Int) (t : Int) (ui ai ri : Nat)
    (hc : ∀ i, clock i = t)
    (hidx : lookupIndices wb.header = .ok (ui, ai, ri))
    (hwt : ∀ row ∈ wb.data, ∃ u, getCell0 row ui = .dt u) :
    read_excel_file clock wb =
      .ok (Ws.mk wb.header (wb.data.filter (specEligible t ui ai ri))) := by
  unfold read_excel_file
  rw [hidx]
  show (revLoop (readStep clock wb.data.length ui ai ri) wb.data wb.data.length).bind _ = _
  rw [revLoop_eq_exRevFM,
    exRevFM_congr _ (fun _ r => .ok (if specEligible t ui ai ri r then some r else none))
      0 wb.data (fun j r hr => readStep_eq_filter clock t _ ui ai ri j r hc (hwt r hr)),
    exRevFM_pure_filter]
  rfl

/-- Header row of the source table, with the five required column names. -/
def header5 : List CellValue :=
  [.str "CPR", .str "Beløb", .str "Udbetalingsdato", .str "Aftale type",
    .str "RIM aftaletype"]

/-- A data row that passes all eligibility filters when "now" is at least 90
days after datetime 0. -/
def rowP : List CellValue := [.str "p1", .int 1000, .dt 0, .empty, .empty]

/-- Like `rowP` but for a second person. -/
def rowQ : List CellValue := [.str "p2", .int 1000, .dt 0, .empty, .empty]

/-- Witness for C3 at a concrete two-row workbook and a constant clock 200
days after the disbursement datetimes: both rows survive. -/
theorem claim_C3_witness :
    read_excel_file (fun _ => 86400 * 200) (Ws.mk header5 [rowP, rowQ]) =
      .ok (Ws.mk header5
        ((Ws.mk header5 [rowP, rowQ]).data.filter (specEligible (86400 * 200) 2 3 4))) :=
  claim_C3 (Ws.mk header5 [rowP, rowQ]) (fun _ => 86400 * 200) (86400 * 200) 2 3 4
    (fun _ => rfl) rfl
    (by
      intro row hrow
      simp only [Ws.data, List.mem_cons, List.not_mem_nil, or_false] at hrow
      rcases hrow with rfl | rfl
      · exact ⟨0, rfl⟩
      · exact ⟨0, rfl⟩)

/-- Clock oracle whose first sample is 200 days after datetime 0 and whose
later samples are datetime 0 itself. -/
def clockA : Nat → Int := fun t => if t = 0 then 86400 * 200 else 0

/-- Clock oracle with the two samples of `clockA` swapped. -/
def clockB : Nat → Int := fun t => if t = 0 then 0 else 86400 * 200

/-- C6 counterexample. `datetime.now()` is re-sampled inside the loop
(process.py line 88), so two runs over the same workbook whose clock samples
differ only in order keep different rows: the claim that a single "now" is
sampled once and used for every row's decision is false of the code. -/
theorem claim_C6_counterexample :
    read_excel_file clockA (Ws.mk header5 [rowP, rowQ]) =
      .ok (Ws.mk header5 [rowQ]) ∧
    read_excel_file clockB (Ws.mk header5 [rowP, rowQ]) =
      .ok (Ws.mk header5 [rowP]) ∧
    Ws.mk header5 [rowQ] ≠ Ws.mk header5 [rowP] := by
  refine ⟨rfl, rfl, by decide⟩

/-- C6 as amended. Whenever every `datetime.now()` sample returns the same
value `t` — a fixed clock for the run — the filter's result is determined by
the workbook and `t` alone: any two such runs agree. -/
theorem claim_C6_amended (wb : Ws) (clock clock' : Nat → Int) (t : Int)
    (hc : ∀ i, clock i = t) (hc' : ∀ i, clock' i = t) :
    read_excel_file clock wb = read_excel_file clock' wb := by
  have hstep : readStep clock wb.data.length = readStep clock' wb.data.length := by
    funext ui ai ri k row
    unfold readStep
    rw [hc, hc']
  unfold read_excel_file
  rw [hstep]

/-- Witness for C6's amended statement: two syntactically different constant
clocks with the same value yield the same run on the concrete workbook. -/
theorem claim_C6_amended_witness :
    read_excel_file (fun _ => 86400 * 200) (Ws.mk header5 [rowP, rowQ]) =
      read_excel_file (fun _ => 86400 * 100 + 86400 * 100) (Ws.mk header5 [rowP, rowQ]) :=
  claim_C6_amended (Ws.mk header5 [rowP, rowQ]) _ _ (86400 * 200)
    (fun _ => rfl) (fun _ => by decide)

/-! ## C8: missing required column -/

lemma bind_error_cases {α β : Type} (x : Except Err α) (f : α → Except Err β)
    (h : ∀ a, x = .ok a → ∃ e, f a = .error e) : ∃ e, x.bind f = .error e := by
  cases hx : x with
  | error e => exact ⟨e, by rw [Except.bind]⟩
  | ok a =>
    obtain ⟨e, he⟩ := h a hx
    exact ⟨e, by rw [Except.bind]; exact he⟩

lemma lookupIndices_error (columns : List CellValue)
    (hmiss : CellValue.str "CPR" ∉ columns ∨ CellValue.str "Beløb" ∉ columns ∨
      CellValue.str "Udbetalingsdato" ∉ columns ∨
      CellValue.str "Aftale type" ∉ columns ∨
      CellValue.str "RIM aftaletype" ∉ columns) :
    ∃ e, lookupIndices columns = .error e := by
  unfold lookupIndices
  rcases hmiss with h | h | h | h | h
  · rw [pyIndex_error_of_not_mem _ _ h]
    exact ⟨_, rfl⟩
  · apply bind_error_cases; intro _ _
    rw [pyIndex_error_of_not_mem _ _ h]
    exact ⟨_, rfl⟩
  · apply bind_error_cases; intro _ _
    apply bind_error_cases; intro _ _
    rw [pyIndex_error_of_not_mem _ _ h]
    exact ⟨_, rfl⟩
  · apply bind_error_cases; intro _ _
    apply bind_error_cases; intro _ _
    apply bind_error_cases; intro _ _
    rw [pyIndex_error_of_not_mem _ _ h]
    exact ⟨_, rfl⟩
  · apply bind_error_cases; intro _ _
    apply bind_error_cases; intro _ _
    apply bind_error_cases; intro _ _
    apply bind_error_cases; intro _ _
    rw [pyIndex_error_of_not_mem _ _ h]
    exact ⟨_, rfl⟩

/-- C8. When any of the five required column names is absent from the header,
`read_excel_file` fails with an error, and it does so before touching the data
rows: the outcome is the same as on a workbook with no data rows at all. -/
theorem claim_C8 (wb : Ws) (clock : Nat → Int)
    (hmiss : CellValue.str "CPR" ∉ wb.header ∨ CellValue.str "Beløb" ∉ wb.header ∨
      CellValue.str "Udbetalingsdato" ∉ wb.header ∨
      CellValue.str "Aftale type" ∉ wb.header ∨
      CellValue.str "RIM aftaletype" ∉ wb.header) :
    (∃ e, read_excel_file clock wb = .error e) ∧
      read_excel_file clock wb = read_excel_file clock (Ws.mk wb.header []) := by
  obtain ⟨e, he⟩ := lookupIndices_error wb.header hmiss
  constructor
  · exact ⟨e, by unfold read_excel_file; rw [he]; rfl⟩
  · unfold read_excel_file
    show (lookupIndices wb.header).bind _ = (lookupIndices wb.header).bind _
    rw [he]
    rfl

/-- Witness for C8: a workbook with an empty header (every required column
missing) and one data row fails before any filtering. -/
theorem claim_C8_witness :
    (∃ e, read_excel_file (fun _ => 0) (Ws.mk [] [[CellValue.str "x"]]) = .error e) ∧
      read_excel_file (fun _ => 0) (Ws.mk [] [[CellValue.str "x"]]) =
        read_excel_file (fun _ => 0) (Ws.mk (Ws.mk ([] : List CellValue) [[CellValue.str "x"]]).header []) :=
  claim_C8 (Ws.mk [] [[CellValue.str "x"]]) (fun _ => 0) (Or.inl (by decide))

/-! ## Cell-write lemmas -/

lemma getD_set_self {α : Type} :
    ∀ (l : List α) (j : Nat) (v d : α), j < l.length → (l.set j v).getD j d = v := by
  intro l
  induction l with
  | nil => intro j v d h; exact absurd h (by simp)
  | cons a l ih =>
    intro j v d h
    cases j with
    | zero => rfl
    | succ j =>
      simp only [List.set, List.getD_cons_succ]
      exact ih j v d (by simpa using h)

lemma getD_set_ne {α : Type} :
    ∀ (l : List α) (i j : Nat) (v d : α), i ≠ j → (l.set j v).getD i d = l.getD i d := by
  intro l
  induction l with
  | nil => intro i j v d _; rfl
  | cons a l ih =>
    intro i j v d h
    cases j with
    | zero =>
      cases i with
      | zero => exact absurd rfl h
      | succ i => rfl
    | succ j =>
      cases i with
      | zero => rfl
      | succ i =>
        simp only [List.set, List.getD_cons_succ]
        exact ih i j v d (by omega)

lemma getD_replicate_empty : ∀ (k i : Nat),
    (List.replicate k CellValue.empty).getD i .empty = .empty := by
  intro k
  induction k with
  | zero => intro i; rfl
  | succ k ih =>
    intro i
    cases i with
    | zero => rfl
    | succ i => exact ih i

lemma getCell0_padTo (row : List CellValue) (c i : Nat) :
    getCell0 (padTo row c) i = getCell0 row i := by
  unfold getCell0 padTo
  generalize c - row.length = k
  induction row generalizing i with
  | nil => rw [List.nil_append, getD_replicate_empty k i]; rfl
  | cons a row ih =>
    cases i with
    | zero => rfl
    | succ i => simpa using ih i

lemma padTo_ge_length (row : List CellValue) (c : Nat) : c ≤ (padTo row c).length := by
  unfold padTo
  rw [List.length_append, List.length_replicate]
  omega

lemma getCell0_setCell1_eq (row : List CellValue) (c : Nat) (v : CellValue)
    (h : 1 ≤ c) : getCell0 (setCell1 row c v) (c - 1) = v := by
  unfold getCell0 setCell1
  apply getD_set_self
  have := padTo_ge_length row c
  omega

lemma getCell0_setCell1_ne (row : List CellValue) (c i : Nat) (v : CellValue)
    (h : i ≠ c - 1) : getCell0 (setCell1 row c v) i = getCell0 row i := by
  unfold getCell0 setCell1
  rw [getD_set_ne _ _ _ _ _ h]
  exact getCell0_padTo row c i

lemma setCell1_append_self (l : List CellValue) (v : CellValue) :
    setCell1 l (l.length + 1) v = l ++ [v] := by
  unfold setCell1 padTo
  have h1 : l.length + 1 - l.length = 1 := by omega
  have h2 : l.length + 1 - 1 = l.length := by omega
  rw [h1, h2]
  exact set_append_cons l CellValue.empty [] v

/-! ## get_address_changes (process.py lines 101-128) -/

/-- Per-row enrichment of `get_address_changes` (lines 124-128): read the CPR
cell (0-based column `ci`), resolve the address-change date via
`look_up_address_change` on that person's history, and — only when a date came
back (`if date:`) — write it into 1-based column `c`. -/
def enrichRow (history : CellValue → List AddressRow) (ci c : Nat)
    (row : List CellValue) : List CellValue :=
  match look_up_address_change (history (getCell0 row ci)) with
  | some d => setCell1 row c (.date d)
  | none => row

/-- Embedding of `get_address_changes` (lines 101-128): append the
"Adresseændringsdato" header cell at column `len(columns)+1`, look up the CPR
column (`ValueError` when absent), and enrich every data row in place.
`history` stands for the Datavarehuset query keyed by the CPR cell value,
returning rows newest first. -/
def get_address_changes (history : CellValue → List AddressRow) (wb : Ws) :
    Except Err Ws :=
  match pyIndex "CPR" wb.header with
  | .error e => .error e
  | .ok ci =>
    .ok (Ws.mk (setCell1 wb.header (wb.header.length + 1) (.str "Adresseændringsdato"))
      (wb.data.map (enrichRow history ci (wb.header.length + 1))))

lemma get_address_changes_ok (history : CellValue → List AddressRow)
    (wb wb1 : Ws) (h : get_address_changes history wb = .ok wb1) :
    ∃ ci, pyIndex "CPR" wb.header = .ok ci ∧
      wb1.header = wb.header ++ [.str "Adresseændringsdato"] ∧
      wb1.data = wb.data.map (enrichRow history ci (wb.header.length + 1)) := by
  unfold get_address_changes at h
  cases hci : pyIndex "CPR" wb.header with
  | error e => rw [hci] at h; exact Except.noConfusion h
  | ok ci =>
    rw [hci] at h
    have h' : Except.ok (Ws.mk
        (setCell1 wb.header (wb.header.length + 1) (.str "Adresseændringsdato"))
        (wb.data.map (enrichRow history ci (wb.header.length + 1)))) = Except.ok wb1 := h
    injection h' with h2
    refine ⟨ci, rfl, ?_, ?_⟩
    · rw [← h2]; exact setCell1_append_self wb.header _
    · rw [← h2]

/-! ## calculate_difference (process.py lines 163-191) -/

/-- Per-row action of the final loop (lines 184-191): subtract
`row[udbetalingsdato].value.date()` from `row[aendringsdato].value`; this only
succeeds when the first cell holds a `date` and the second a `datetime`
(anything else — in particular an address cell left empty by the enrichment —
raises in Python); delete the row when the difference is below 89 days,
otherwise write it into 1-based column `c`. -/
def calcRowF (ai ui c : Nat) (row : List CellValue) :
    Except Err (Option (List CellValue)) :=
  match getCell0 row ai, getCell0 row ui with
  | .date a, .dt u =>
    if a - u.fdiv 86400 < 89 then .ok none
    else .ok (some (setCell1 row c (.int (a - u.fdiv 86400))))
  | _, _ => .error .typeError

/-- Embedding of `calculate_difference` (lines 163-191): append the
"Difference" header cell at `len(columns)+1`, look up the two date columns in
the pre-append header, then run the reverse deletion loop with `calcRowF`. -/
def calculate_difference (wb : Ws) : Except Err Ws :=
  match pyIndex "Udbetalingsdato" wb.header, pyIndex "Adresseændringsdato" wb.header with
  | .ok ui, .ok ai =>
    match revLoop (fun _ r => calcRowF ai ui (wb.header.length + 1) r)
        wb.data wb.data.length with
    | .error e => .error e
    | .ok rows =>
      .ok (Ws.mk (setCell1 wb.header (wb.header.length + 1) (.str "Difference")) rows)
  | .error e, _ => .error e
  | _, .error e => .error e

lemma calculate_difference_ok (wb wb2 : Ws)
    (h : calculate_difference wb = .ok wb2) :
    ∃ ui ai, pyIndex "Udbetalingsdato" wb.header = .ok ui ∧
      pyIndex "Adresseændringsdato" wb.header = .ok ai ∧
      wb2.header = wb.header ++ [.str "Difference"] ∧
      wb2.data = wb.data.filterMap
        (fun r => exToOpt (calcRowF ai ui (wb.header.length + 1) r)) := by
  unfold calculate_difference at h
  cases hui : pyIndex "Udbetalingsdato" wb.header with
  | error e =>
    rw [hui] at h
    cases hai : pyIndex "Adresseændringsdato" wb.header with
    | error f => rw [hai] at h; exact Except.noConfusion h
    | ok ai => rw [hai] at h; exact Except.noConfusion h
  | ok ui =>
    rw [hui] at h
    cases hai : pyIndex "Adresseændringsdato" wb.header with
    | error f => rw [hai] at h; exact Except.noConfusion h
    | ok ai =>
      rw [hai] at h
      have hred : (match revLoop (fun _ r => calcRowF ai ui (wb.header.length + 1) r)
            wb.data wb.data.length with
          | Except.error e => (Except.error e : Except Err Ws)
          | Except.ok rows =>
            Except.ok (Ws.mk
              (setCell1 wb.header (wb.header.length + 1) (.str "Difference")) rows)) =
          Except.ok wb2 := h
      cases hloop : revLoop (fun _ r => calcRowF ai ui (wb.header.length + 1) r)
          wb.data wb.data.length with
      | error e => rw [hloop] at hred; exact Except.noConfusion hred
      | ok rows =>
        rw [hloop] at hred
        have h' : Except.ok (Ws.mk
            (setCell1 wb.header (wb.header.length + 1) (.str "Difference")) rows) =
            Except.ok wb2 := hred
        injection h' with h2
        refine ⟨ui, ai, rfl, rfl, ?_, ?_⟩
        · rw [← h2]; exact setCell1_append_self wb.header _
        · rw [← h2]
          exact exRevFM_ok_filterMap (calcRowF ai ui (wb.header.length + 1)) 0
            wb.data rows (by rw [← revLoop_eq_exRevFM]; exact hloop)

/-- C2. Whenever `calculate_difference` completes, the surviving rows are the
error-free filter-map of the input rows, and every surviving row carries a
day difference that is at least 89 and equals the address-change date minus
the calendar date of the disbursement datetime; rows computing a smaller
difference are deleted (mapped to `none`), not persisted. -/
theorem claim_C2 (wb wb2 : Ws) (h : calculate_difference wb = .ok wb2) :
    ∃ ui ai, pyIndex "Udbetalingsdato" wb.header = .ok ui ∧
      pyIndex "Adresseændringsdato" wb.header = .ok ai ∧
      wb2.data = wb.data.filterMap
        (fun r => exToOpt (calcRowF ai ui (wb.header.length + 1) r)) ∧
      ∀ row ∈ wb2.data, ∃ d a u,
        getCell0 row wb.header.length = .int d ∧ 89 ≤ d ∧
        getCell0 row ai = .date a ∧ getCell0 row ui = .dt u ∧
        d = a - u.fdiv 86400 := by
  obtain ⟨ui, ai, hui, hai, hhdr, hdata⟩ := calculate_difference_ok wb wb2 h
  refine ⟨ui, ai, hui, hai, hdata, ?_⟩
  intro row hrow
  rw [hdata, List.mem_filterMap] at hrow
  obtain ⟨orig, horig, hmap⟩ := hrow
  unfold calcRowF at hmap
  cases hA : getCell0 orig ai with
  | date a =>
    rw [hA] at hmap
    cases hU : getCell0 orig ui with
    | dt u =>
      rw [hU] at hmap
      have hmap2 : exToOpt (if a - u.fdiv 86400 < 89
            then (Except.ok none : Except Err (Option (List CellValue)))
            else Except.ok (some (setCell1 orig (wb.header.length + 1)
              (CellValue.int (a - u.fdiv 86400))))) = some row := hmap
      by_cases hlt : a - u.fdiv 86400 < 89
      · rw [if_pos hlt] at hmap2
        simp [exToOpt] at hmap2
      · rw [if_neg hlt] at hmap2
        simp only [exToOpt, Option.some.injEq] at hmap2
        subst hmap2
        have hailt : ai < wb.header.length := pyIndex_ok_lt _ _ _ hai
        have huilt : ui < wb.header.length := pyIndex_ok_lt _ _ _ hui
        refine ⟨a - u.fdiv 86400, a, u, ?_, Int.not_lt.mp hlt, ?_, ?_, rfl⟩
        · have := getCell0_setCell1_eq orig (wb.header.length + 1)
            (.int (a - u.fdiv 86400)) (by omega)
          simpa using this
        · rw [getCell0_setCell1_ne _ _ _ _ (by omega)]
          exact hA
        · rw [getCell0_setCell1_ne _ _ _ _ (by omega)]
          exact hU
    | empty => rw [hU] at hmap; simp [exToOpt] at hmap
    | str s => rw [hU] at hmap; simp [exToOpt] at hmap
    | date x => rw [hU] at hmap; simp [exToOpt] at hmap
    | int n => rw [hU] at hmap; simp [exToOpt] at hmap
  | empty => rw [hA] at hmap; simp [exToOpt] at hmap
  | str s => rw [hA] at hmap; simp [exToOpt] at hmap
  | dt x => rw [hA] at hmap; simp [exToOpt] at hmap
  | int n => rw [hA] at hmap; simp [exToOpt] at hmap

/-- Address history oracle giving every person a single entry effective from
day 150. -/
def histOne : CellValue → List AddressRow := fun _ => [⟨150, "A"⟩]

/-- Address history oracle giving every person an empty history. -/
def histEmpty : CellValue → List AddressRow := fun _ => []

/-- Single-row workbook of a disbursement at datetime 0 with no disqualifying
agreement markers. -/
def wbOne : Ws := Ws.mk header5 [rowP]

/-- `wbOne` after enrichment through `histOne`. -/
def wbB : Ws :=
  Ws.mk (header5 ++ [.str "Adresseændringsdato"]) [rowP ++ [.date 150]]

/-- `wbB` after the day-difference pass: the difference 150 is persisted. -/
def wbC : Ws :=
  Ws.mk (header5 ++ [.str "Adresseændringsdato", .str "Difference"])
    [rowP ++ [.date 150, .int 150]]

/-- Witness for C2 at the concrete enriched workbook `wbB`. -/
theorem claim_C2_witness :
    ∃ ui ai, pyIndex "Udbetalingsdato" wbB.header = .ok ui ∧
      pyIndex "Adresseændringsdato" wbB.header = .ok ai ∧
      wbC.data = wbB.data.filterMap
        (fun r => exToOpt (calcRowF ai ui (wbB.header.length + 1) r)) ∧
      ∀ row ∈ wbC.data, ∃ d a u,
        getCell0 row wbB.header.length = .int d ∧ 89 ≤ d ∧
        getCell0 row ai = .date a ∧ getCell0 row ui = .dt u ∧
        d = a - u.fdiv 86400 :=
  claim_C2 wbB wbC rfl

/-- C4 (code bug evidence). A row whose person has an empty address history
passes enrichment with its address cell left empty, and the subsequent
`calculate_difference` then raises a `TypeError` instead of deleting the row:
the subtraction at line 185 dereferences the unset cell. -/
theorem claim_C4_eval :
    get_address_changes histEmpty wbOne =
      .ok (Ws.mk (header5 ++ [.str "Adresseændringsdato"]) [rowP]) ∧
    calculate_difference (Ws.mk (header5 ++ [.str "Adresseændringsdato"]) [rowP]) =
      .error Err.typeError :=
  ⟨rfl, rfl⟩

/-! ## C9/C10: column and header preservation -/

lemma calcRowF_some_preserve (ai ui c : Nat) (orig row : List CellValue)
    (h : exToOpt (calcRowF ai ui c orig) = some row) :
    ∀ i, i ≠ c - 1 → getCell0 row i = getCell0 orig i := by
  unfold calcRowF at h
  cases hA : getCell0 orig ai with
  | date a =>
    rw [hA] at h
    cases hU : getCell0 orig ui with
    | dt u =>
      rw [hU] at h
      have h2 : exToOpt (if a - u.fdiv 86400 < 89
            then (Except.ok none : Except Err (Option (List CellValue)))
            else Except.ok (some (setCell1 orig c
              (CellValue.int (a - u.fdiv 86400))))) = some row := h
      by_cases hlt : a - u.fdiv 86400 < 89
      · rw [if_pos hlt] at h2
        simp [exToOpt] at h2
      · rw [if_neg hlt] at h2
        simp only [exToOpt, Option.some.injEq] at h2
        subst h2
        intro i hi
        exact getCell0_setCell1_ne _ _ _ _ hi
    | empty => rw [hU] at h; simp [exToOpt] at h
    | str s => rw [hU] at h; simp [exToOpt] at h
    | date x => rw [hU] at h; simp [exToOpt] at h
    | int n => rw [hU] at h; simp [exToOpt] at h
  | empty => rw [hA] at h; simp [exToOpt] at h
  | str s => rw [hA] at h; simp [exToOpt] at h
  | dt x => rw [hA] at h; simp [exToOpt] at h
  | int n => rw [hA] at h; simp [exToOpt] at h

/-- C9. Across the two derived-column passes the source columns keep their
order and content: the enrichment appends the address-change header cell
right after the last existing column, the difference pass appends its header
cell after that, and every surviving data row agrees with a source row on all
original column positions — nothing is moved, renamed or overwritten. -/
theorem claim_C9 (history : CellValue → List AddressRow) (wb wb1 wb2 : Ws)
    (h1 : get_address_changes history wb = .ok wb1)
    (h2 : calculate_difference wb1 = .ok wb2) :
    wb1.header = wb.header ++ [.str "Adresseændringsdato"] ∧
    wb2.header = wb.header ++ [.str "Adresseændringsdato", .str "Difference"] ∧
    (∀ row ∈ wb1.data, ∃ orig ∈ wb.data,
      ∀ i, i < wb.header.length → getCell0 row i = getCell0 orig i) ∧
    (∀ row ∈ wb2.data, ∃ mid ∈ wb1.data,
      ∀ i, i < wb1.header.length → getCell0 row i = getCell0 mid i) := by
  obtain ⟨ci, hci, hh1, hd1⟩ := get_address_changes_ok history wb wb1 h1
  obtain ⟨ui, ai, hui, hai, hh2, hd2⟩ := calculate_difference_ok wb1 wb2 h2
  refine ⟨hh1, ?_, ?_, ?_⟩
  · rw [hh2, hh1, List.append_assoc]
    rfl
  · intro row hrow
    rw [hd1, List.mem_map] at hrow
    obtain ⟨orig, ho, heq⟩ := hrow
    refine ⟨orig, ho, ?_⟩
    intro i hi
    rw [← heq]
    unfold enrichRow
    cases look_up_address_change (history (getCell0 orig ci)) with
    | none => rfl
    | some d => exact getCell0_setCell1_ne _ _ _ _ (by omega)
  · intro row hrow
    rw [hd2, List.mem_filterMap] at hrow
    obtain ⟨mid, hm, hmap⟩ := hrow
    refine ⟨mid, hm, ?_⟩
    intro i hi
    exact calcRowF_some_preserve ai ui (wb1.header.length + 1) mid row hmap i (by omega)

/-- Witness for C9 at the concrete one-row pipeline through `histOne`. -/
theorem claim_C9_witness :
    wbB.header = wbOne.header ++ [CellValue.str "Adresseændringsdato"] ∧
    wbC.header = wbOne.header ++
      [CellValue.str "Adresseændringsdato", CellValue.str "Difference"] ∧
    (∀ row ∈ wbB.data, ∃ orig ∈ wbOne.data,
      ∀ i, i < wbOne.header.length → getCell0 row i = getCell0 orig i) ∧
    (∀ row ∈ wbC.data, ∃ mid ∈ wbB.data,
      ∀ i, i < wbB.header.length → getCell0 row i = getCell0 mid i) :=
  claim_C9 histOne wbOne wbB wbC rfl rfl

lemma read_excel_file_ok_header (clock : Nat → Int) (wb wbR : Ws)
    (h : read_excel_file clock wb = .ok wbR) : wbR.header = wb.header := by
  unfold read_excel_file at h
  cases hidx : lookupIndices wb.header with
  | error e => rw [hidx] at h; exact Except.noConfusion h
  | ok idxs =>
    obtain ⟨ui, ai, ri⟩ := idxs
    rw [hidx] at h
    have hred : (revLoop (readStep clock wb.data.length ui ai ri)
          wb.data wb.data.length).bind
        (fun filtered => (pure (Ws.mk wb.header filtered) : Except Err Ws)) =
        Except.ok wbR := h
    cases hloop : revLoop (readStep clock wb.data.length ui ai ri)
        wb.data wb.data.length with
    | error e => rw [hloop] at hred; exact Except.noConfusion hred
    | ok rows =>
      rw [hloop] at hred
      have h' : Except.ok (Ws.mk wb.header rows) = Except.ok wbR := hred
      injection h' with h2
      rw [← h2]

/-- C10. The header row survives every pass unchanged apart from the two
appended header cells: filtering leaves it identical, enrichment appends
exactly the address-change name, and the difference pass appends exactly the
difference name, so after each operation row 1 still holds the original
column names in order. -/
theorem claim_C10 (clock : Nat → Int) (history : CellValue → List AddressRow)
    (w0 wA wB wC : Ws)
    (hr : read_excel_file clock w0 = .ok wA)
    (hg : get_address_changes history wA = .ok wB)
    (hc : calculate_difference wB = .ok wC) :
    wA.header = w0.header ∧
    wB.header = w0.header ++ [.str "Adresseændringsdato"] ∧
    wC.header = w0.header ++ [.str "Adresseændringsdato", .str "Difference"] := by
  have hA := read_excel_file_ok_header clock w0 wA hr
  obtain ⟨ci, hci, hh1, hd1⟩ := get_address_changes_ok history wA wB hg
  obtain ⟨ui, ai, hui, hai, hh2, hd2⟩ := calculate_difference_ok wB wC hc
  refine ⟨hA, ?_, ?_⟩
  · rw [hh1, hA]
  · rw [hh2, hh1, hA, List.append_assoc]
    rfl

/-- Witness for C10 at the concrete one-row pipeline: the filter keeps the
row, the enrichment and difference passes append their columns. -/
theorem claim_C10_witness :
    wbOne.header = wbOne.header ∧
    wbB.header = wbOne.header ++ [CellValue.str "Adresseændringsdato"] ∧
    wbC.header = wbOne.header ++
      [CellValue.str "Adresseændringsdato", CellValue.str "Difference"] :=
  claim_C10 (fun _ => 86400 * 200) histOne wbOne wbOne wbB wbC (by rfl) rfl rfl

end Akbo
